import Mathlib

/-!
Verification of the GitHub scrobbler module (`src/core/scrobbler/github-scrobbler.ts`).

The module is a multi-destination event dispatcher: `sendRequest` checks the
configured destination list, builds one JSON request body whose `content` field
is `btoa(JSON.stringify(request))`, fans out one HTTP PUT per destination (URL
derived from a `{owner}/{repo}/{path}` template and a UTC-date-based path), and
reduces the joined responses to a single `ServiceCallResult`.

The embedding below models:
- JS strings as Lean `String` (sequences of code points), with `btoa`/`atob`
  as real base64 over code units (failing, as in JS, on units ≥ 256);
- `JSON.stringify` / `JSON.parse` as a printer and parser for a `Json` value
  type (integer-valued numbers, which covers every number the module emits);
- the `Date` UTC accessors (`getUTCFullYear`, `getUTCMonth`, `getUTCDay`,
  `getUTCDate`) by the proleptic Gregorian calendar from the Unix epoch;
- the dispatcher itself as a pure function of the configuration, the request
  and a `JoinOutcome` describing what awaiting the joined fetches produced.
-/

/-! ### Decimal digits (the `Number.prototype.toString` fragment the module uses) -/

/-- The character for the decimal digit `d`. -/
def digitChar (d : Nat) : Char := Char.ofNat (48 + d)

/-- Decimal digit run of `n`, most significant first; structural on a fuel
bound so that it reduces inside the kernel. -/
def natCharsFuel : Nat → Nat → List Char
  | 0, _ => []
  | fuel + 1, n =>
    if n < 10 then [digitChar n] else natCharsFuel fuel (n / 10) ++ [digitChar (n % 10)]

/-- Decimal digit characters of `n`, as `String(n)` produces in JS. -/
def natChars (n : Nat) : List Char := natCharsFuel (n + 1) n

/-- Decimal rendering of a natural number as a string. -/
def natToString (n : Nat) : String := String.mk (natChars n)

/-- Recognizer for decimal digit characters. -/
def isDigitCh (c : Char) : Bool := 48 ≤ c.toNat && c.toNat ≤ 57

/-- Value of a digit run, most significant first. -/
def digitsVal (ds : List Char) : Nat := ds.foldl (fun a c => a * 10 + (c.toNat - 48)) 0

theorem natCharsFuel_stable (f₁ : Nat) : ∀ f₂ n, n < f₁ → n < f₂ →
    natCharsFuel f₁ n = natCharsFuel f₂ n := by
  induction f₁ with
  | zero => intro f₂ n h; omega
  | succ g ih =>
    intro f₂ n h₁ h₂
    cases f₂ with
    | zero => omega
    | succ h =>
      simp only [natCharsFuel]
      by_cases hn : n < 10
      · simp [hn]
      · simp only [if_neg hn]
        rw [ih h (n / 10) (by omega) (by omega)]

/-- The recurrence `natChars` satisfies, with the fuel hidden. -/
theorem natChars_eq (n : Nat) :
    natChars n = if n < 10 then [digitChar n] else natChars (n / 10) ++ [digitChar (n % 10)] := by
  by_cases hn : n < 10
  · simp [natChars, natCharsFuel, hn]
  · have h1 : natChars n = natCharsFuel n (n / 10) ++ [digitChar (n % 10)] := by
      simp [natChars, natCharsFuel, hn]
    rw [h1, if_neg hn, natCharsFuel_stable n (n / 10 + 1) (n / 10) (by omega) (by omega)]
    rfl

theorem digitChar_toNat : ∀ d, d < 10 → (digitChar d).toNat = 48 + d := by decide

theorem digitChar_isDigit : ∀ d, d < 10 → isDigitCh (digitChar d) = true := by decide

theorem natChars_ne_nil (n : Nat) : natChars n ≠ [] := by
  rw [natChars_eq]
  by_cases hn : n < 10 <;> simp [hn]

theorem natChars_all_digit (n : Nat) : ∀ c ∈ natChars n, isDigitCh c = true := by
  induction n using Nat.strong_induction_on with
  | _ n ih =>
    rw [natChars_eq]
    by_cases hn : n < 10
    · simpa [hn] using digitChar_isDigit n hn
    · simp only [if_neg hn, List.mem_append, List.mem_singleton]
      rintro c (hc | rfl)
      · exact ih (n / 10) (by omega) c hc
      · exact digitChar_isDigit (n % 10) (by omega)

theorem digitsVal_natChars (n : Nat) : digitsVal (natChars n) = n := by
  induction n using Nat.strong_induction_on with
  | _ n ih =>
    rw [natChars_eq]
    by_cases hn : n < 10
    · simp only [if_pos hn, digitsVal, List.foldl_cons, List.foldl_nil]
      rw [digitChar_toNat n hn]; omega
    · simp only [if_neg hn, digitsVal, List.foldl_append, List.foldl_cons, List.foldl_nil]
      have h10 := ih (n / 10) (by omega)
      simp only [digitsVal] at h10
      rw [h10, digitChar_toNat (n % 10) (by omega)]
      omega

/-! ### Base64 (`btoa` / `atob`) -/

/-- The base64 alphabet character for a six-bit value. -/
def b64c (n : Nat) : Char :=
  if n < 26 then Char.ofNat (65 + n)
  else if n < 52 then Char.ofNat (71 + n)
  else if n < 62 then Char.ofNat (n - 4)
  else if n = 62 then '+'
  else '/'

/-- Reading a base64 alphabet character back to its six-bit value. -/
def b64v (c : Char) : Option Nat :=
  if 65 ≤ c.toNat ∧ c.toNat ≤ 90 then some (c.toNat - 65)
  else if 97 ≤ c.toNat ∧ c.toNat ≤ 122 then some (c.toNat - 71)
  else if 48 ≤ c.toNat ∧ c.toNat ≤ 57 then some (c.toNat + 4)
  else if c = '+' then some 62
  else if c = '/' then some 63
  else none

/-- Base64 encoding of a byte list, with `=` padding. -/
def b64encode : List Nat → List Char
  | [] => []
  | [b₁] => [b64c (b₁ / 4), b64c (b₁ % 4 * 16), '=', '=']
  | [b₁, b₂] => [b64c (b₁ / 4), b64c (b₁ % 4 * 16 + b₂ / 16), b64c (b₂ % 16 * 4), '=']
  | b₁ :: b₂ :: b₃ :: rest =>
    b64c (b₁ / 4) :: b64c (b₁ % 4 * 16 + b₂ / 16) :: b64c (b₂ % 16 * 4 + b₃ / 64) ::
      b64c (b₃ % 64) :: b64encode rest

/-- Base64 decoding; `none` on any input `atob` would throw on. -/
def b64decode : List Char → Option (List Nat)
  | [] => some []
  | c₁ :: c₂ :: c₃ :: c₄ :: rest =>
    match b64v c₁, b64v c₂ with
    | some a, some b =>
      if c₃ = '=' then
        if c₄ = '=' then if rest = [] then some [a * 4 + b / 16] else none else none
      else
        match b64v c₃ with
        | some c =>
          if c₄ = '=' then
            if rest = [] then some [a * 4 + b / 16, b % 16 * 16 + c / 4] else none
          else
            match b64v c₄ with
            | some d =>
              (b64decode rest).map
                (fun bs => (a * 4 + b / 16) :: (b % 16 * 16 + c / 4) :: (c % 4 * 64 + d) :: bs)
            | none => none
        | none => none
    | _, _ => none
  | _ => none

theorem b64v_b64c : ∀ n, n < 64 → b64v (b64c n) = some n := by decide

theorem b64c_ne_eq : ∀ n, n < 64 → b64c n ≠ '=' := by decide

theorem b64decode_encode : ∀ bs : List Nat, (∀ b ∈ bs, b < 256) →
    b64decode (b64encode bs) = some bs := by
  intro bs
  induction bs using b64encode.induct with
  | case1 => intro _; simp [b64encode, b64decode]
  | case2 b₁ =>
    intro h
    have hb₁ : b₁ < 256 := h b₁ (by simp)
    simp [b64encode, b64decode,
      b64v_b64c (b₁ / 4) (by omega), b64v_b64c (b₁ % 4 * 16) (by omega)]
    omega
  | case3 b₁ b₂ =>
    intro h
    have hb₁ : b₁ < 256 := h b₁ (by simp)
    have hb₂ : b₂ < 256 := h b₂ (by simp)
    simp [b64encode, b64decode,
      b64v_b64c (b₁ / 4) (by omega), b64v_b64c (b₁ % 4 * 16 + b₂ / 16) (by omega),
      b64v_b64c (b₂ % 16 * 4) (by omega), if_neg (b64c_ne_eq (b₂ % 16 * 4) (by omega))]
    omega
  | case4 b₁ b₂ b₃ rest ih =>
    intro h
    have hb₁ : b₁ < 256 := h b₁ (by simp)
    have hb₂ : b₂ < 256 := h b₂ (by simp)
    have hb₃ : b₃ < 256 := h b₃ (by simp)
    have hrest := ih (fun b hb => h b (by simp [hb]))
    simp [b64encode, b64decode,
      b64v_b64c (b₁ / 4) (by omega), b64v_b64c (b₁ % 4 * 16 + b₂ / 16) (by omega),
      b64v_b64c (b₂ % 16 * 4 + b₃ / 64) (by omega), b64v_b64c (b₃ % 64) (by omega),
      if_neg (b64c_ne_eq (b₂ % 16 * 4 + b₃ / 64) (by omega)),
      if_neg (b64c_ne_eq (b₃ % 64) (by omega)), hrest]
    omega

/-- `btoa`: base64 of a string's code units; throws (`none`) if any unit is ≥ 256. -/
def btoa (s : String) : Option String :=
  if s.data.all (fun c => decide (c.toNat < 256)) then
    some (String.mk (b64encode (s.data.map Char.toNat)))
  else none

/-- `atob`: base64 decoding back to a string of code units. -/
def atob (s : String) : Option String :=
  (b64decode s.data).map (fun bs => String.mk (bs.map Char.ofNat))

theorem string_mk_data : ∀ s : String, String.mk s.data = s := fun ⟨_⟩ => rfl

/-- Decoding inverts `btoa` whenever `btoa` succeeds. -/
theorem atob_btoa (s t : String) (h : btoa s = some t) : atob t = some s := by
  simp only [btoa] at h
  split at h
  · rename_i hall
    cases h
    simp only [atob]
    have hlt : ∀ b ∈ s.data.map Char.toNat, b < 256 := by
      intro b hb
      simp only [List.mem_map] at hb
      obtain ⟨c, hc, rfl⟩ := hb
      have := List.all_eq_true.mp hall c hc
      exact of_decide_eq_true this
    rw [b64decode_encode (s.data.map Char.toNat) hlt]
    simp only [Option.map_some', List.map_map, Option.some.injEq]
    rw [show Char.ofNat ∘ Char.toNat = id from funext Char.ofNat_toNat]
    simp [string_mk_data]
  · cases h

/-! ### JSON values and `JSON.stringify` -/

/-- The JSON value universe the module serializes (numbers restricted to the
integer-valued doubles the module actually produces). -/
inductive Json where
  | null
  | bool (b : Bool)
  | num (n : Int)
  | str (s : String)
  | arr (elems : List Json)
  | obj (fields : List (String × Json))

/-- Lowercase hexadecimal digit character. -/
def hexDigitCh (n : Nat) : Char := if n < 10 then Char.ofNat (48 + n) else Char.ofNat (87 + n)

/-- JSON string escaping of one code unit, as `JSON.stringify` performs it. -/
def escapeChar (c : Char) : List Char :=
  if c = '"' then ['\\', '"']
  else if c = '\\' then ['\\', '\\']
  else if c.toNat = 8 then ['\\', 'b']
  else if c.toNat = 9 then ['\\', 't']
  else if c.toNat = 10 then ['\\', 'n']
  else if c.toNat = 12 then ['\\', 'f']
  else if c.toNat = 13 then ['\\', 'r']
  else if c.toNat < 32 then
    ['\\', 'u', '0', '0', hexDigitCh (c.toNat / 16), hexDigitCh (c.toNat % 16)]
  else [c]

/-- Escaped body of a JSON string literal. -/
def strBodyChars (s : String) : List Char := s.data.flatMap escapeChar

/-- A quoted, escaped JSON string literal. -/
def printStr (s : String) : List Char := '"' :: (strBodyChars s ++ ['"'])

/-- Decimal rendering of an integer. -/
def intChars (n : Int) : List Char :=
  if n < 0 then '-' :: natChars n.natAbs else natChars n.natAbs

mutual
/-- `JSON.stringify`, producing the code units of the serialized value. -/
def printJson : Json → List Char
  | .num n => intChars n
  | .str s => printStr s
  | .arr xs => '[' :: (printElems xs ++ [']'])
  | .obj fs => '\x7b' :: (printMembers fs ++ ['\x7d'])
  | .null => ['n', 'u', 'l', 'l']
  | .bool b => if b then ['t', 'r', 'u', 'e'] else ['f', 'a', 'l', 's', 'e']
/-- Comma-separated renderings of array elements. -/
def printElems : List Json → List Char
  | [] => []
  | [x] => printJson x
  | x :: y :: xs => printJson x ++ (',' :: printElems (y :: xs))
/-- Comma-separated renderings of object members. -/
def printMembers : List (String × Json) → List Char
  | [] => []
  | [(k, v)] => printStr k ++ (':' :: printJson v)
  | (k, v) :: f :: fs => printStr k ++ (':' :: (printJson v ++ (',' :: printMembers (f :: fs))))
end

/-- `JSON.stringify` as a string-valued function. -/
def Json.stringify (j : Json) : String := String.mk (printJson j)

/-! ### `JSON.parse` -/

/-- Value of a hexadecimal digit character. -/
def hexValCh (c : Char) : Option Nat :=
  if 48 ≤ c.toNat ∧ c.toNat ≤ 57 then some (c.toNat - 48)
  else if 97 ≤ c.toNat ∧ c.toNat ≤ 102 then some (c.toNat - 87)
  else if 65 ≤ c.toNat ∧ c.toNat ≤ 70 then some (c.toNat - 55)
  else none

/-- The character named by a single-character JSON escape. -/
def unescapeChar (c : Char) : Option Char :=
  if c = '"' then some '"'
  else if c = '\\' then some '\\'
  else if c = '/' then some '/'
  else if c = 'b' then some (Char.ofNat 8)
  else if c = 't' then some (Char.ofNat 9)
  else if c = 'n' then some (Char.ofNat 10)
  else if c = 'f' then some (Char.ofNat 12)
  else if c = 'r' then some (Char.ofNat 13)
  else none

/-- Parse a JSON string body up to (and consuming) the closing quote. -/
def parseStrBody : List Char → Option (List Char × List Char)
  | [] => none
  | c :: rest =>
    if c = '"' then some ([], rest)
    else if c = '\\' then
      match rest with
      | [] => none
      | e :: rest₁ =>
        if e = 'u' then
          match rest₁ with
          | h₁ :: h₂ :: h₃ :: h₄ :: rest₂ =>
            match hexValCh h₁, hexValCh h₂, hexValCh h₃, hexValCh h₄ with
            | some a, some b, some c', some d =>
              (parseStrBody rest₂).map
                (fun p => (Char.ofNat (((a * 16 + b) * 16 + c') * 16 + d) :: p.1, p.2))
            | _, _, _, _ => none
          | _ => none
        else
          match unescapeChar e with
          | some u => (parseStrBody rest₁).map (fun p => (u :: p.1, p.2))
          | none => none
    else if c.toNat < 32 then none
    else (parseStrBody rest).map (fun p => (c :: p.1, p.2))

/-- Consume an expected literal character sequence. -/
def afterLiteral : List Char → List Char → Option (List Char)
  | [], l => some l
  | p :: ps, l =>
    match l with
    | [] => none
    | c :: cs => if c = p then afterLiteral ps cs else none

/-- Parse a run of decimal digits as a natural number (maximal munch). -/
def parseNatNum (l : List Char) : Option (Nat × List Char) :=
  let ds := l.takeWhile isDigitCh
  if ds = [] then none else some (digitsVal ds, l.dropWhile isDigitCh)

mutual
/-- `JSON.parse` for one value, structural on a fuel bound. -/
def parseVal : Nat → List Char → Option (Json × List Char)
  | 0, _ => none
  | _ + 1, [] => none
  | fuel + 1, c :: rest =>
    if c = 'n' then (afterLiteral ['u', 'l', 'l'] rest).map (fun r => (Json.null, r))
    else if c = 't' then (afterLiteral ['r', 'u', 'e'] rest).map (fun r => (Json.bool true, r))
    else if c = 'f' then (afterLiteral ['a', 'l', 's', 'e'] rest).map (fun r => (Json.bool false, r))
    else if c = '"' then (parseStrBody rest).map (fun p => (Json.str (String.mk p.1), p.2))
    else if c = '[' then
      if rest.head? = some ']' then some (Json.arr [], rest.tail)
      else (parseElems fuel rest).map (fun p => (Json.arr p.1, p.2))
    else if c = '\x7b' then
      if rest.head? = some '\x7d' then some (Json.obj [], rest.tail)
      else (parseMembers fuel rest).map (fun p => (Json.obj p.1, p.2))
    else if c = '-' then (parseNatNum rest).map (fun p => (Json.num (-(p.1 : Int)), p.2))
    else if isDigitCh c then (parseNatNum (c :: rest)).map (fun p => (Json.num (p.1 : Int), p.2))
    else none
/-- One-or-more comma-separated array elements, consuming the closing bracket. -/
def parseElems : Nat → List Char → Option (List Json × List Char)
  | 0, _ => none
  | fuel + 1, l =>
    match parseVal fuel l with
    | none => none
    | some (j, rest) =>
      match rest with
      | ',' :: rest₁ => (parseElems fuel rest₁).map (fun p => (j :: p.1, p.2))
      | ']' :: rest₁ => some ([j], rest₁)
      | _ => none
/-- One-or-more comma-separated object members, consuming the closing brace. -/
def parseMembers : Nat → List Char → Option (List (String × Json) × List Char)
  | 0, _ => none
  | fuel + 1, l =>
    match l with
    | [] => none
    | c :: rest =>
      if c = '"' then
        match parseStrBody rest with
        | none => none
        | some (k, rest₁) =>
          match rest₁ with
          | ':' :: rest₂ =>
            match parseVal fuel rest₂ with
            | none => none
            | some (v, rest₃) =>
              match rest₃ with
              | ',' :: rest₄ =>
                (parseMembers fuel rest₄).map (fun p => ((String.mk k, v) :: p.1, p.2))
              | '\x7d' :: rest₄ => some ([(String.mk k, v)], rest₄)
              | _ => none
          | _ => none
      else none
end

/-- `JSON.parse`: parse a complete document with no trailing characters. -/
def parseJson (s : String) : Option Json :=
  match parseVal (s.data.length + 1) s.data with
  | some (j, []) => some j
  | _ => none

/-! ### Round-trip: `JSON.parse` inverts `JSON.stringify` -/

theorem hexValCh_hexDigitCh : ∀ m, m < 16 → hexValCh (hexDigitCh m) = some m := by decide

/-- One-step unfolding of `parseStrBody`, usable as a rewrite rule. -/
theorem parseStrBody_unfold (l : List Char) : parseStrBody l =
    match l with
    | [] => none
    | c :: rest =>
      if c = '"' then some ([], rest)
      else if c = '\\' then
        match rest with
        | [] => none
        | e :: rest₁ =>
          if e = 'u' then
            match rest₁ with
            | h₁ :: h₂ :: h₃ :: h₄ :: rest₂ =>
              match hexValCh h₁, hexValCh h₂, hexValCh h₃, hexValCh h₄ with
              | some a, some b, some c', some d =>
                (parseStrBody rest₂).map
                  (fun p => (Char.ofNat (((a * 16 + b) * 16 + c') * 16 + d) :: p.1, p.2))
              | _, _, _, _ => none
            | _ => none
          else
            match unescapeChar e with
            | some u => (parseStrBody rest₁).map (fun p => (u :: p.1, p.2))
            | none => none
      else if c.toNat < 32 then none
      else (parseStrBody rest).map (fun p => (c :: p.1, p.2)) := by
  rw [parseStrBody.eq_def]

theorem parseStrBody_escape (c : Char) (l : List Char) :
    parseStrBody (escapeChar c ++ l) = (parseStrBody l).map (fun p => (c :: p.1, p.2)) := by
  by_cases h1 : c = '"'
  · subst h1
    rw [show escapeChar '"' ++ l = '\\' :: '"' :: l from rfl, parseStrBody_unfold]
    simp [unescapeChar]
  by_cases h2 : c = '\\'
  · subst h2
    rw [show escapeChar '\\' ++ l = '\\' :: '\\' :: l from by simp [escapeChar], parseStrBody_unfold]
    simp [unescapeChar]
  by_cases h3 : c.toNat = 8
  · have hc : Char.ofNat 8 = c := by rw [← h3, Char.ofNat_toNat]
    rw [show escapeChar c ++ l = '\\' :: 'b' :: l from by simp [escapeChar, h1, h2, h3],
      parseStrBody_unfold]
    simp only [unescapeChar]
    simp
    rw [hc]
  by_cases h4 : c.toNat = 9
  · have hc : Char.ofNat 9 = c := by rw [← h4, Char.ofNat_toNat]
    rw [show escapeChar c ++ l = '\\' :: 't' :: l from by simp [escapeChar, h1, h2, h3, h4],
      parseStrBody_unfold]
    simp only [unescapeChar]
    simp
    rw [hc]
  by_cases h5 : c.toNat = 10
  · have hc : Char.ofNat 10 = c := by rw [← h5, Char.ofNat_toNat]
    rw [show escapeChar c ++ l = '\\' :: 'n' :: l from by simp [escapeChar, h1, h2, h3, h4, h5],
      parseStrBody_unfold]
    simp only [unescapeChar]
    simp
    rw [hc]
  by_cases h6 : c.toNat = 12
  · have hc : Char.ofNat 12 = c := by rw [← h6, Char.ofNat_toNat]
    rw [show escapeChar c ++ l = '\\' :: 'f' :: l from by
        simp [escapeChar, h1, h2, h3, h4, h5, h6],
      parseStrBody_unfold]
    simp only [unescapeChar]
    simp
    rw [hc]
  by_cases h7 : c.toNat = 13
  · have hc : Char.ofNat 13 = c := by rw [← h7, Char.ofNat_toNat]
    rw [show escapeChar c ++ l = '\\' :: 'r' :: l from by
        simp [escapeChar, h1, h2, h3, h4, h5, h6, h7],
      parseStrBody_unfold]
    simp only [unescapeChar]
    simp
    rw [hc]
  by_cases h8 : c.toNat < 32
  · have hv : c.toNat / 16 * 16 + c.toNat % 16 = c.toNat := by omega
    rw [show escapeChar c ++ l
        = '\\' :: 'u' :: '0' :: '0' :: hexDigitCh (c.toNat / 16) :: hexDigitCh (c.toNat % 16) :: l
        from by simp [escapeChar, h1, h2, h3, h4, h5, h6, h7, h8],
      parseStrBody_unfold]
    simp only [hexValCh_hexDigitCh (c.toNat / 16) (by omega),
      hexValCh_hexDigitCh (c.toNat % 16) (by omega)]
    simp [hexValCh, hv, Char.ofNat_toNat]
  · rw [show escapeChar c ++ l = c :: l from by
        simp [escapeChar, h1, h2, h3, h4, h5, h6, h7, h8],
      parseStrBody_unfold]
    simp [h1, h2, h8]

theorem parseStrBody_print (cs : List Char) : ∀ l : List Char,
    parseStrBody (cs.flatMap escapeChar ++ ('"' :: l)) = some (cs, l) := by
  induction cs with
  | nil =>
    intro l
    rw [List.flatMap_nil, List.nil_append, parseStrBody_unfold]
    simp
  | cons c cs ih =>
    intro l
    rw [List.flatMap_cons, List.append_assoc, parseStrBody_escape, ih]
    rfl

/-- The continuation after a printed value never begins with a digit. -/
def noDigitHead : List Char → Bool
  | [] => true
  | c :: _ => !isDigitCh c

theorem noDigitHead_cons (c : Char) (l : List Char) :
    noDigitHead (c :: l) = !isDigitCh c := rfl

theorem takeWhile_digit_run (ds : List Char) (hds : ∀ c ∈ ds, isDigitCh c = true) :
    ∀ rest, noDigitHead rest = true →
      (ds ++ rest).takeWhile isDigitCh = ds ∧ (ds ++ rest).dropWhile isDigitCh = rest := by
  induction ds with
  | nil =>
    intro rest h
    cases rest with
    | nil => simp
    | cons c t =>
      rw [noDigitHead_cons, Bool.not_eq_true'] at h
      simp [List.takeWhile_cons, List.dropWhile_cons, h]
  | cons c t ih =>
    intro rest h
    have hc : isDigitCh c = true := hds c (List.mem_cons_self c t)
    have hrec := ih (fun x hx => hds x (List.mem_cons_of_mem c hx)) rest h
    simp [List.takeWhile_cons, List.dropWhile_cons, hc, hrec.1, hrec.2]

theorem parseNatNum_natChars (n : Nat) (rest : List Char) (h : noDigitHead rest = true) :
    parseNatNum (natChars n ++ rest) = some (n, rest) := by
  obtain ⟨htake, hdrop⟩ := takeWhile_digit_run (natChars n) (natChars_all_digit n) rest h
  simp [parseNatNum, htake, hdrop, natChars_ne_nil n, digitsVal_natChars]

theorem natChars_head (n : Nat) : ∃ c t, natChars n = c :: t ∧ isDigitCh c = true := by
  cases h : natChars n with
  | nil => exact absurd h (natChars_ne_nil n)
  | cons c t =>
    refine ⟨c, t, rfl, natChars_all_digit n c ?_⟩
    rw [h]
    exact List.mem_cons_self c t

theorem isDigitCh_ne_key (c : Char) (h : isDigitCh c = true) :
    c ≠ '\x7b' ∧ c ≠ '-' ∧ c ≠ '"' ∧ c ≠ '[' ∧ c ≠ 'n' ∧ c ≠ 't' ∧ c ≠ 'f' ∧
      c ≠ ']' ∧ c ≠ '\x7d' ∧ c ≠ ',' := by
  refine ⟨?_, ?_, ?_, ?_, ?_, ?_, ?_, ?_, ?_, ?_⟩ <;> (rintro rfl; exact absurd h (by decide))

theorem printJson_head (j : Json) :
    ∃ c t, printJson j = c :: t ∧ c ≠ ']' ∧ c ≠ '\x7d' := by
  cases j with
  | null => exact ⟨'n', _, rfl, by decide, by decide⟩
  | bool b =>
    cases b with
    | true => exact ⟨'t', _, rfl, by decide, by decide⟩
    | false => exact ⟨'f', _, rfl, by decide, by decide⟩
  | str s => exact ⟨'"', _, rfl, by decide, by decide⟩
  | arr xs => exact ⟨'[', _, rfl, by decide, by decide⟩
  | obj fs => exact ⟨'\x7b', _, rfl, by decide, by decide⟩
  | num n =>
    by_cases hn : n < 0
    · refine ⟨'-', natChars n.natAbs, ?_, by decide, by decide⟩
      simp [printJson, intChars, hn]
    · obtain ⟨c, t, hct, hcd⟩ := natChars_head n.natAbs
      obtain ⟨_, _, _, _, _, _, _, hne1, hne2, _⟩ := isDigitCh_ne_key c hcd
      refine ⟨c, t, ?_, hne1, hne2⟩
      simp [printJson, intChars, hn, hct]

theorem printJson_ne_nil (j : Json) : printJson j ≠ [] := by
  obtain ⟨c, t, h, _, _⟩ := printJson_head j
  simp [h]

theorem printElems_head (x : Json) (xs : List Json) :
    ∃ c t, printElems (x :: xs) = c :: t ∧ c ≠ ']' ∧ c ≠ '\x7d' := by
  obtain ⟨c, t, h, h1, h2⟩ := printJson_head x
  cases xs with
  | nil => exact ⟨c, t, by simp [printElems, h], h1, h2⟩
  | cons y ys =>
    exact ⟨c, t ++ (',' :: printElems (y :: ys)), by simp [printElems, h], h1, h2⟩

theorem parse_print_aux : ∀ fuel : Nat,
    (∀ j rest, (printJson j).length ≤ fuel → noDigitHead rest = true →
      parseVal fuel (printJson j ++ rest) = some (j, rest)) ∧
    (∀ x xs rest, (printElems (x :: xs)).length + 1 ≤ fuel →
      parseElems fuel (printElems (x :: xs) ++ (']' :: rest)) = some (x :: xs, rest)) ∧
    (∀ k v fs rest, (printMembers ((k, v) :: fs)).length + 1 ≤ fuel →
      parseMembers fuel (printMembers ((k, v) :: fs) ++ ('\x7d' :: rest))
        = some ((k, v) :: fs, rest)) := by
  intro fuel
  induction fuel using Nat.strong_induction_on with
  | _ fuel ih =>
    refine ⟨?_, ?_, ?_⟩
    · intro j rest hf hnd
      cases fuel with
      | zero =>
        exfalso
        exact printJson_ne_nil j (List.length_eq_zero.mp (Nat.le_zero.mp hf))
      | succ f =>
        cases j with
        | null => simp [printJson, parseVal, afterLiteral]
        | bool b => cases b <;> simp [printJson, parseVal, afterLiteral]
        | str s =>
          have hps := parseStrBody_print s.data rest
          simp only [printJson, printStr, strBodyChars, List.cons_append, List.append_assoc,
            List.singleton_append]
          simp [parseVal, hps, string_mk_data]
        | num n =>
          by_cases hn : n < 0
          · have hp := parseNatNum_natChars n.natAbs rest hnd
            simp only [printJson, intChars, if_pos hn, List.cons_append]
            simp [parseVal, hp]
            rw [abs_of_neg hn, neg_neg]
          · obtain ⟨c, t, hct, hcd⟩ := natChars_head n.natAbs
            obtain ⟨k1, k2, k3, k4, k5, k6, k7, _, _, _⟩ := isDigitCh_ne_key c hcd
            have hp := parseNatNum_natChars n.natAbs rest hnd
            rw [hct] at hp
            simp only [List.cons_append] at hp
            simp only [printJson, intChars, if_neg hn, hct, List.cons_append]
            simp [parseVal, k1, k2, k3, k4, k5, k6, k7, hcd, hp]
            omega
        | arr xs =>
          cases xs with
          | nil => simp [printJson, printElems, parseVal]
          | cons x xs' =>
            simp only [printJson, List.length_cons, List.length_append,
              List.length_singleton] at hf
            have hE := (ih f (by omega)).2.1 x xs' rest (by omega)
            obtain ⟨c, t, hct, hc1, hc2⟩ := printElems_head x xs'
            have hhead : (printElems (x :: xs') ++ (']' :: rest)).head? = some c := by
              rw [hct]; rfl
            simp only [printJson, List.cons_append, List.append_assoc, List.singleton_append]
            simp [parseVal, hhead, hc1, hE]
        | obj fs =>
          cases fs with
          | nil => simp [printJson, printMembers, parseVal]
          | cons kv fs' =>
            obtain ⟨k, v⟩ := kv
            simp only [printJson, List.length_cons, List.length_append,
              List.length_singleton] at hf
            have hM := (ih f (by omega)).2.2 k v fs' rest (by omega)
            have hhead : (printMembers ((k, v) :: fs') ++ ('\x7d' :: rest)).head? = some '"' := by
              cases fs' <;> simp [printMembers, printStr]
            simp only [printJson, List.cons_append, List.append_assoc, List.singleton_append]
            simp [parseVal, hhead, hM]
    · intro x xs rest hf
      cases fuel with
      | zero => omega
      | succ f =>
        cases xs with
        | nil =>
          simp only [printElems, List.length_cons] at hf
          have hV := (ih f (by omega)).1 x (']' :: rest) (by omega)
            (by rw [noDigitHead_cons]; decide)
          simp only [printElems]
          simp [parseElems, hV]
        | cons y ys =>
          have hx1 : 0 < (printJson x).length := List.length_pos.mpr (printJson_ne_nil x)
          simp only [printElems, List.length_append, List.length_cons] at hf
          have hV := (ih f (by omega)).1 x (',' :: (printElems (y :: ys) ++ (']' :: rest)))
            (by omega) (by rw [noDigitHead_cons]; decide)
          have hE := (ih f (by omega)).2.1 y ys rest (by omega)
          simp only [printElems, List.cons_append, List.append_assoc]
          simp [parseElems, hV, hE]
    · intro k v fs rest hf
      cases fuel with
      | zero => omega
      | succ f =>
        cases fs with
        | nil =>
          simp only [printMembers, printStr, List.length_append, List.length_cons,
            List.length_singleton] at hf
          have hV := (ih f (by omega)).1 v ('\x7d' :: rest) (by omega)
            (by rw [noDigitHead_cons]; decide)
          have hkey := parseStrBody_print k.data (':' :: (printJson v ++ ('\x7d' :: rest)))
          simp only [printMembers, printStr, strBodyChars, List.cons_append, List.append_assoc,
            List.singleton_append]
          simp [parseMembers, hkey, hV, string_mk_data]
        | cons kv' fs' =>
          obtain ⟨k', v'⟩ := kv'
          have hv1 : 0 < (printJson v).length := List.length_pos.mpr (printJson_ne_nil v)
          simp only [printMembers, printStr, List.length_append, List.length_cons,
            List.length_singleton] at hf
          have hV := (ih f (by omega)).1 v
            (',' :: (printMembers ((k', v') :: fs') ++ ('\x7d' :: rest)))
            (by omega) (by rw [noDigitHead_cons]; decide)
          have hM := (ih f (by omega)).2.2 k' v' fs' rest (by omega)
          have hkey := parseStrBody_print k.data
            (':' :: (printJson v ++ (',' :: (printMembers ((k', v') :: fs') ++ ('\x7d' :: rest)))))
          simp only [printMembers, printStr, strBodyChars, List.cons_append, List.append_assoc,
            List.singleton_append]
          simp [parseMembers, hkey, hV, hM, string_mk_data]

/-- `JSON.parse` inverts `JSON.stringify`. -/
theorem parseJson_stringify (j : Json) : parseJson (Json.stringify j) = some j := by
  have h := (parse_print_aux ((printJson j).length + 1)).1 j [] (by omega) rfl
  rw [List.append_nil] at h
  simp [parseJson, Json.stringify, h]

/-! ### The scrobbler's data model -/

/-- `ServiceCallResult` from `core/object/service-call-result`. -/
inductive ServiceCallResult where
  | RESULT_OK
  | RESULT_IGNORE
  | ERROR_AUTH
  | ERROR_OTHER
deriving DecidableEq

/-- One entry of the user-defined array properties: a destination
`applicationName` (`owner/repo`) plus its token (`userApiUrl`). -/
structure ArrayProperties where
  applicationName : String
  userApiUrl : String
deriving DecidableEq

/-- The session payload `getSession` resolves with. -/
structure SessionData where
  sessionID : String
deriving DecidableEq

/-- A JS promise settling: rejected with an error message, or resolved. -/
inductive SessionOutcome where
  | rejected (message : String)
  | resolved (session : SessionData)
deriving DecidableEq

/-- `getSession`: rejects when the destination list is absent or empty,
otherwise resolves the fixed sentinel session. -/
def getSession (arrayProperties : Option (List ArrayProperties)) : SessionOutcome :=
  match arrayProperties with
  | none => .rejected ""
  | some props => if props.length = 0 then .rejected "" else .resolved ⟨"webhook"⟩

/-! ### The `Date` UTC accessors -/

/-- Milliseconds per UTC day. -/
def msPerDay : Nat := 86400000

/-- Whole days since the Unix epoch. -/
def daysFromEpoch (t : Nat) : Nat := t / msPerDay

/-- `getUTCDay`: day of week, 0 = Sunday (1970-01-01 was a Thursday). -/
def getUTCDay (t : Nat) : Nat := (daysFromEpoch t + 4) % 7

/-- Gregorian leap-year rule. -/
def isLeapYear (y : Nat) : Bool := (y % 4 = 0 && y % 100 ≠ 0) || y % 400 = 0

def daysInYear (y : Nat) : Nat := if isLeapYear y then 366 else 365

/-- Walk forward one year at a time from 1970, on fuel. -/
def yearDayAux : Nat → Nat → Nat → Nat × Nat
  | 0, y, d => (y, d)
  | fuel + 1, y, d =>
    if d < daysInYear y then (y, d) else yearDayAux fuel (y + 1) (d - daysInYear y)

/-- UTC year and zero-based day of year of a day count from the epoch. -/
def yearAndDayOfYear (days : Nat) : Nat × Nat := yearDayAux (days + 1) 1970 days

/-- `getUTCFullYear`. -/
def getUTCFullYear (t : Nat) : Nat := (yearAndDayOfYear (daysFromEpoch t)).1

def monthLengths (leap : Bool) : List Nat :=
  [31, if leap then 29 else 28, 31, 30, 31, 30] ++ [31, 31, 30, 31, 30, 31]

def monthDayAux : List Nat → Nat → Nat → Nat × Nat
  | [], m, d => (m, d)
  | ml :: rest, m, d => if d < ml then (m, d) else monthDayAux rest (m + 1) (d - ml)

/-- Zero-based UTC month together with the zero-based day of month. -/
def monthAndDay (t : Nat) : Nat × Nat :=
  let yd := yearAndDayOfYear (daysFromEpoch t)
  monthDayAux (monthLengths (isLeapYear yd.1)) 0 yd.2

/-- `getUTCMonth`: zero-based (January = 0). -/
def getUTCMonth (t : Nat) : Nat := (monthAndDay t).1

/-- `getUTCDate`: one-based day of month. -/
def getUTCDate (t : Nat) : Nat := (monthAndDay t).2 + 1

/-! ### JS string helpers used by the dispatcher -/

/-- ECMAScript `GetSubstitution`: expand the replacement string's `$`-patterns.
With a string search pattern there are no capture groups, so the recognized
patterns are `$$` (a dollar sign), `$&` (the matched text), `` $` `` (the text
before the match, code 96) and `$'` (the text after the match); any other `$`
is literal. -/
def getSubstitution (matched str : List Char) (position : Nat) : List Char → List Char
  | [] => []
  | c :: rest =>
    if c = '$' then
      match rest with
      | [] => ['$']
      | d :: rest₁ =>
        if d = '$' then '$' :: getSubstitution matched str position rest₁
        else if d = '&' then matched ++ getSubstitution matched str position rest₁
        else if d = Char.ofNat 96 then
          str.take position ++ getSubstitution matched str position rest₁
        else if d = '\'' then
          str.drop (position + matched.length) ++ getSubstitution matched str position rest₁
        else '$' :: d :: getSubstitution matched str position rest₁
    else c :: getSubstitution matched str position rest

/-- `String.prototype.replace` with a string pattern: substitute at the first
occurrence only, expanding `$`-patterns in the replacement via
`getSubstitution`. `str` is the whole subject string and `position` the index
of the first character still to scan. -/
def replaceFirstGo (str : List Char) : Nat → List Char → List Char → List Char → List Char
  | position, [], pat, rep => if pat = [] then getSubstitution pat str position rep else []
  | position, c :: rest, pat, rep =>
    if pat.isPrefixOf (c :: rest) then
      getSubstitution pat str position rep ++ (c :: rest).drop pat.length
    else c :: replaceFirstGo str (position + 1) rest pat rep

def replaceFirst (s pat rep : String) : String :=
  String.mk (replaceFirstGo s.data 0 s.data pat.data rep.data)

/-- `String.prototype.split` with a single-character separator. -/
def splitOnChar (sep : Char) : List Char → List (List Char)
  | [] => [[]]
  | c :: rest =>
    if c = sep then [] :: splitOnChar sep rest
    else
      match splitOnChar sep rest with
      | [] => [[c]]
      | g :: gs => (c :: g) :: gs

def splitSlash (s : String) : List String := (splitOnChar '/' s.data).map String.mk

/-- JS indexing: an out-of-range index yields `undefined`, which string
interpolation renders as `"undefined"`. -/
def jsIndex (xs : List String) (i : Nat) : String := (xs.get? i).getD "undefined"

/-! ### The dispatcher (`sendRequest`) -/

/-- The request payload type (`GitHubRequest` in the source). A song is
modelled by its serialized JSON form, since `BaseSong` is an external type. -/
structure GitHubRequestData where
  song : Option Json
  songs : Option (List Json)
  isLoved : Option Bool
  currentlyPlaying : Option Bool

structure GitHubRequest where
  eventName : String
  time : Nat
  data : GitHubRequestData

/-- The fields `JSON.stringify` sees on the `data` object: properties holding
`undefined` are dropped, the rest keep insertion order. -/
def dataFields (d : GitHubRequestData) : List (String × Json) :=
  (match d.song with | some s => [("song", s)] | none => []) ++
  (match d.songs with | some l => [("songs", Json.arr l)] | none => []) ++
  (match d.isLoved with | some b => [("isLoved", Json.bool b)] | none => []) ++
  (match d.currentlyPlaying with | some b => [("currentlyPlaying", Json.bool b)] | none => [])

/-- The JSON value `JSON.stringify(request)` serializes. -/
def requestToJson (r : GitHubRequest) : Json :=
  .obj [("eventName", .str r.eventName), ("time", .num (r.time : Int)),
        ("data", .obj (dataFields r.data))]

/-- `btoa(JSON.stringify(request))`: `none` when `btoa` throws. -/
def buildContent (r : GitHubRequest) : Option String :=
  btoa (Json.stringify (requestToJson r))

/-- The JSON value of the shared request body, given the content field. -/
def bodyJson (r : GitHubRequest) (content : String) : Json :=
  .obj [("message", .str (r.eventName ++ " at " ++ natToString r.time)),
        ("committer",
          .obj [("name", .str "WebScrobbler"), ("email", .str "webscrobbler@github.com")]),
        ("content", .str content)]

/-- The serialized request body built once per dispatch call. -/
def buildBody (r : GitHubRequest) : Option String :=
  (buildContent r).map (fun content => Json.stringify (bodyJson r content))

def baseUrl : String := "https://api.github.com/"

def apiUrl : String := baseUrl ++ "repos/{owner}/{repo}/contents/{path}"

/-- The storage path: `year/month/weekday/time-eventName.json` (as in the
source, the third segment is `getUTCDay`, the weekday). -/
def derivedPath (eventName : String) (time : Nat) : String :=
  natToString (getUTCFullYear time) ++ "/" ++ natToString (getUTCMonth time) ++ "/" ++
    natToString (getUTCDay time) ++ "/" ++ natToString time ++ "-" ++ eventName ++ ".json"

/-- The per-destination target URL. -/
def targetUrl (props : ArrayProperties) (request : GitHubRequest) : String :=
  replaceFirst
    (replaceFirst
      (replaceFirst apiUrl "{owner}" (jsIndex (splitSlash props.applicationName) 0))
      "{repo}" (jsIndex (splitSlash props.applicationName) 1))
    "{path}" (derivedPath request.eventName request.time)

/-- One outbound `fetch` call as the dispatcher issues it. -/
structure HttpRequest where
  url : String
  method : String
  contentType : String
  authorization : String
  body : String
deriving DecidableEq

/-- The per-destination request: shared body and method, per-destination URL
and bearer token. -/
def makeHttpRequest (props : ArrayProperties) (request : GitHubRequest) (body : String) :
    HttpRequest :=
  { url := targetUrl props request
    method := "PUT"
    contentType := "application/json"
    authorization := "Bearer " ++ props.userApiUrl
    body := body }

/-- The fan-out loop: one pushed fetch per configured destination, in order. -/
def issuedRequests (props : List ArrayProperties) (request : GitHubRequest) (body : String) :
    List HttpRequest :=
  props.foldl (fun acc p => acc ++ [makeHttpRequest p request body]) []

/-- An HTTP response as the aggregation loop sees it. -/
structure Response where
  status : Nat
  url : String
deriving DecidableEq

/-- What awaiting `timeoutPromise(timeout, Promise.all(promises))` produced:
either all responses in order, or a rejection (timeout or transport error). -/
inductive JoinOutcome where
  | failed
  | responses (rs : List Response)
deriving DecidableEq

/-- How a JS async function settles: a returned value, or an uncaught throw. -/
inductive JsOutcome (α : Type) where
  | thrown
  | value (a : α)
deriving DecidableEq

/-- The response scan: `ERROR_OTHER` at the first non-200 status, else `RESULT_OK`. -/
def scanResponses : List Response → ServiceCallResult
  | [] => .RESULT_OK
  | r :: rs => if r.status ≠ 200 then .ERROR_OTHER else scanResponses rs

/-- The observable behavior of one `sendRequest` call: which fetches were
issued, and how the call settled. -/
structure SendOutcome where
  issued : List HttpRequest
  outcome : JsOutcome ServiceCallResult
deriving DecidableEq

/-- `sendRequest`: the destination check, the shared body, the fan-out and the
aggregation, as a function of the configuration and the join outcome. -/
def sendRequest (arrayProperties : Option (List ArrayProperties)) (request : GitHubRequest)
    (join : JoinOutcome) : SendOutcome :=
  match arrayProperties with
  | none => ⟨[], .value .ERROR_AUTH⟩
  | some props =>
    if props.length = 0 then ⟨[], .value .ERROR_AUTH⟩
    else
      match buildBody request with
      | none => ⟨[], .thrown⟩
      | some body =>
        { issued := issuedRequests props request body
          outcome :=
            match join with
            | .failed => .value .ERROR_OTHER
            | .responses rs => .value (scanResponses rs) }

/-! ### `scrobble` -/

/-- The request `scrobble` dispatches: the first song in the singular field
(`undefined` on an empty list), the full list, and the flag. -/
def scrobbleRequest (songs : List Json) (currentlyPlaying : Bool) (now : Nat) : GitHubRequest :=
  { eventName := "scrobble"
    time := now
    data :=
      { song := songs.head?
        songs := some songs
        isLoved := none
        currentlyPlaying := some currentlyPlaying } }

/-- The observable behavior of one `scrobble` call. -/
structure ScrobbleOutcome where
  dispatched : List GitHubRequest
  issued : List HttpRequest
  results : JsOutcome (List ServiceCallResult)

/-- `scrobble`: one `sendRequest` call, then `new Array(songs.length).fill(res)`. -/
def scrobble (arrayProperties : Option (List ArrayProperties)) (songs : List Json)
    (currentlyPlaying : Bool) (now : Nat) (join : JoinOutcome) : ScrobbleOutcome :=
  let req := scrobbleRequest songs currentlyPlaying now
  let out := sendRequest arrayProperties req join
  { dispatched := [req]
    issued := out.issued
    results :=
      match out.outcome with
      | .thrown => .thrown
      | .value r => .value (List.replicate songs.length r) }

/-! ### Supporting lemmas about the dispatcher -/

theorem scanResponses_all_ok (rs : List Response) (h : ∀ r ∈ rs, r.status = 200) :
    scanResponses rs = .RESULT_OK := by
  induction rs with
  | nil => rfl
  | cons r rs ih =>
    have hr := h r (List.mem_cons_self r rs)
    simpa [scanResponses, hr] using ih (fun x hx => h x (List.mem_cons_of_mem r hx))

theorem scanResponses_first_error (rs₁ : List Response) (r : Response) (rs₂ : List Response)
    (h₁ : ∀ x ∈ rs₁, x.status = 200) (hr : r.status ≠ 200) :
    scanResponses (rs₁ ++ r :: rs₂) = .ERROR_OTHER := by
  induction rs₁ with
  | nil => simp [scanResponses, hr]
  | cons x rs₁ ih =>
    have hx := h₁ x (List.mem_cons_self x rs₁)
    simpa [scanResponses, hx] using ih (fun y hy => h₁ y (List.mem_cons_of_mem x hy))

theorem foldl_push (f : ArrayProperties → HttpRequest) (props : List ArrayProperties) :
    ∀ acc : List HttpRequest,
      props.foldl (fun acc p => acc ++ [f p]) acc = acc ++ props.map f := by
  induction props with
  | nil => intro acc; simp
  | cons p props ih => intro acc; simp [List.foldl_cons, ih]

/-- The fan-out loop issues exactly one request per destination, in order. -/
theorem issuedRequests_eq_map (props : List ArrayProperties) (request : GitHubRequest)
    (body : String) :
    issuedRequests props request body = props.map (fun p => makeHttpRequest p request body) := by
  simpa [issuedRequests] using foldl_push (fun p => makeHttpRequest p request body) props []

/-! ### Supporting lemmas about `split` and first-occurrence `replace` -/

theorem splitOnChar_no_sep (sep : Char) (l : List Char) (h : sep ∉ l) :
    splitOnChar sep l = [l] := by
  induction l with
  | nil => rfl
  | cons c rest ih =>
    have hc : ¬(c = sep) := fun e => h (e ▸ List.mem_cons_self c rest)
    rw [show splitOnChar sep (c :: rest)
        = if c = sep then [] :: splitOnChar sep rest
          else match splitOnChar sep rest with
            | [] => [[c]]
            | g :: gs => (c :: g) :: gs from rfl]
    rw [if_neg hc, ih (fun hm => h (List.mem_cons_of_mem c hm))]

theorem splitOnChar_sep_append (sep : Char) (a b : List Char) (ha : sep ∉ a) :
    splitOnChar sep (a ++ sep :: b) = a :: splitOnChar sep b := by
  induction a with
  | nil => simp [splitOnChar]
  | cons c a' ih =>
    have hc : ¬(c = sep) := fun e => ha (e ▸ List.mem_cons_self c a')
    rw [List.cons_append,
      show splitOnChar sep (c :: (a' ++ sep :: b))
        = if c = sep then [] :: splitOnChar sep (a' ++ sep :: b)
          else match splitOnChar sep (a' ++ sep :: b) with
            | [] => [[c]]
            | g :: gs => (c :: g) :: gs from rfl]
    rw [if_neg hc, ih (fun hm => ha (List.mem_cons_of_mem c hm))]

theorem string_data_inj (s t : String) (h : s.data = t.data) : s = t := by
  rw [← string_mk_data s, ← string_mk_data t, h]

theorem splitSlash_two (owner repo : String)
    (ho : '/' ∉ owner.data) (hr : '/' ∉ repo.data) :
    splitSlash (owner ++ "/" ++ repo) = [owner, repo] := by
  have hdata : (owner ++ "/" ++ repo).data = owner.data ++ '/' :: repo.data := by
    simp [String.data_append]
  simp [splitSlash, hdata, splitOnChar_sep_append '/' owner.data repo.data ho,
    splitOnChar_no_sep '/' repo.data hr, string_mk_data]

/-- A replacement string without a dollar sign has no `$`-pattern: the
substitution is the replacement itself. -/
theorem getSubstitution_no_dollar (matched str : List Char) (position : Nat) :
    ∀ rep : List Char, '$' ∉ rep → getSubstitution matched str position rep = rep := by
  intro rep
  induction rep with
  | nil => intro _; rfl
  | cons c rest ih =>
    intro h
    have hc : ¬(c = '$') := fun e => h (e ▸ List.mem_cons_self c rest)
    rw [getSubstitution.eq_def]
    simp [hc, ih (fun hm => h (List.mem_cons_of_mem c hm))]

theorem replaceFirstGo_found (str : List Char) (position : Nat) (pat b rep : List Char)
    (hpat : pat ≠ []) (hrep : '$' ∉ rep) :
    replaceFirstGo str position (pat ++ b) pat rep = rep ++ b := by
  cases pat with
  | nil => exact absurd rfl hpat
  | cons p pt =>
    have hpre : (p :: pt).isPrefixOf ((p :: pt) ++ b) = true := by
      rw [List.isPrefixOf_iff_prefix]
      exact List.prefix_append (p :: pt) b
    rw [List.cons_append,
      show replaceFirstGo str position (p :: (pt ++ b)) (p :: pt) rep
        = if (p :: pt).isPrefixOf (p :: (pt ++ b)) then
            getSubstitution (p :: pt) str position rep ++ (p :: (pt ++ b)).drop (p :: pt).length
          else p :: replaceFirstGo str (position + 1) (pt ++ b) (p :: pt) rep from rfl]
    rw [if_pos (show (p :: pt).isPrefixOf (p :: (pt ++ b)) = true from hpre),
      getSubstitution_no_dollar (p :: pt) str position rep hrep]
    show rep ++ List.drop (p :: pt).length ((p :: pt) ++ b) = rep ++ b
    rw [List.drop_left]

theorem replaceFirstGo_skip (str : List Char) (a : List Char) (p0 : Char) (pt b rep : List Char)
    (ha : p0 ∉ a) : ∀ position : Nat,
    replaceFirstGo str position (a ++ b) (p0 :: pt) rep
      = a ++ replaceFirstGo str (position + a.length) b (p0 :: pt) rep := by
  induction a with
  | nil => intro position; simp
  | cons c a' ih =>
    intro position
    have hc : ¬(p0 = c) := fun e => ha (e ▸ List.mem_cons_self c a')
    have hnp : (p0 :: pt).isPrefixOf (c :: (a' ++ b)) = false := by
      simp [List.isPrefixOf, hc]
    rw [List.cons_append,
      show replaceFirstGo str position (c :: (a' ++ b)) (p0 :: pt) rep
        = if (p0 :: pt).isPrefixOf (c :: (a' ++ b)) then
            getSubstitution (p0 :: pt) str position rep
              ++ (c :: (a' ++ b)).drop (p0 :: pt).length
          else c :: replaceFirstGo str (position + 1) (a' ++ b) (p0 :: pt) rep from rfl]
    rw [if_neg (by simp [hnp]), ih (fun hm => ha (List.mem_cons_of_mem c hm)) (position + 1)]
    rw [show position + 1 + a'.length = position + (c :: a').length by simp; omega]
    rfl

theorem string_data_mk (l : List Char) : (String.mk l).data = l := rfl

theorem replaceFirstGo_step (str : List Char) (position : Nat) (a pt b rep : List Char)
    (ha : '\x7b' ∉ a) (hrep : '$' ∉ rep) :
    replaceFirstGo str position (a ++ (('\x7b' :: pt) ++ b)) ('\x7b' :: pt) rep
      = a ++ (rep ++ b) := by
  rw [replaceFirstGo_skip str a '\x7b' pt _ rep ha position,
    replaceFirstGo_found str _ _ _ _ (by simp) hrep]

theorem natChars_no_dollar (n : Nat) : '$' ∉ natChars n := fun hm =>
  absurd (natChars_all_digit n '$' hm) (by decide)

/-- The derived path contains no dollar sign when the event name has none, so
substituting it into the URL template expands no `$`-pattern. -/
theorem derivedPath_no_dollar (name : String) (time : Nat) (hn : '$' ∉ name.data) :
    '$' ∉ (derivedPath name time).data := by
  intro hm
  simp only [derivedPath, String.data_append, natToString, string_data_mk,
    List.mem_append] at hm
  casesm* _ ∨ _
  all_goals first
    | exact natChars_no_dollar _ (by assumption)
    | exact hn (by assumption)
    | (rename_i h; exact absurd h (by decide))

/-- The URL the dispatcher builds, for a well-formed `owner/repo` destination
(no separator, no template brace, and no dollar sign — so the substitution
expands no `$`-pattern): the template with owner, repo and the derived path
substituted. -/
theorem targetUrl_split (props : ArrayProperties) (request : GitHubRequest) (owner repo : String)
    (happ : props.applicationName = owner ++ "/" ++ repo)
    (ho : ∀ c ∈ owner.data, c ≠ '/' ∧ c ≠ '\x7b' ∧ c ≠ '$')
    (hr : ∀ c ∈ repo.data, c ≠ '/' ∧ c ≠ '\x7b' ∧ c ≠ '$')
    (hev : ∀ c ∈ request.eventName.data, c ≠ '$') :
    targetUrl props request
      = "https://api.github.com/repos/" ++ owner ++ "/" ++ repo ++ "/contents/"
        ++ derivedPath request.eventName request.time := by
  have hos : '/' ∉ owner.data := fun hm => (ho _ hm).1 rfl
  have hrs : '/' ∉ repo.data := fun hm => (hr _ hm).1 rfl
  have hob : '\x7b' ∉ owner.data := fun hm => (ho _ hm).2.1 rfl
  have hrb : '\x7b' ∉ repo.data := fun hm => (hr _ hm).2.1 rfl
  have hod : '$' ∉ owner.data := fun hm => (ho _ hm).2.2 rfl
  have hrd : '$' ∉ repo.data := fun hm => (hr _ hm).2.2 rfl
  have hpd : '$' ∉ (derivedPath request.eventName request.time).data :=
    derivedPath_no_dollar request.eventName request.time (fun hm => hev _ hm rfl)
  have hsplit := splitSlash_two owner repo hos hrs
  have hidx0 : jsIndex [owner, repo] 0 = owner := rfl
  have hidx1 : jsIndex [owner, repo] 1 = repo := rfl
  apply string_data_inj
  simp only [targetUrl, happ, hsplit, hidx0, hidx1, replaceFirst, string_data_mk]
  rw [show apiUrl.data = "https://api.github.com/repos/".data
      ++ ((['\x7b', 'o', 'w', 'n', 'e', 'r', '\x7d'] : List Char)
        ++ "/\x7brepo\x7d/contents/\x7bpath\x7d".data) from by decide,
    replaceFirstGo_step _ _ _ ['o', 'w', 'n', 'e', 'r', '\x7d'] _ _ (by decide) hod]
  rw [show "/\x7brepo\x7d/contents/\x7bpath\x7d".data
      = '/' :: ((['\x7b', 'r', 'e', 'p', 'o', '\x7d'] : List Char)
        ++ "/contents/\x7bpath\x7d".data) from by decide]
  rw [show "https://api.github.com/repos/".data
        ++ (owner.data ++ ('/' :: ((['\x7b', 'r', 'e', 'p', 'o', '\x7d'] : List Char)
          ++ "/contents/\x7bpath\x7d".data)))
      = ("https://api.github.com/repos/".data ++ owner.data ++ ['/'])
        ++ ((['\x7b', 'r', 'e', 'p', 'o', '\x7d'] : List Char)
          ++ "/contents/\x7bpath\x7d".data) from by simp]
  rw [replaceFirstGo_step _ _ _ ['r', 'e', 'p', 'o', '\x7d'] _ _ (by
    intro hm
    rcases List.mem_append.mp hm with hm | hm
    · rcases List.mem_append.mp hm with hm | hm
      · exact absurd hm (by decide)
      · exact hob hm
    · exact absurd hm (by decide)) hrd]
  rw [show "/contents/\x7bpath\x7d".data
      = "/contents/".data ++ ((['\x7b', 'p', 'a', 't', 'h', '\x7d'] : List Char) ++ []) from
      by decide]
  rw [show ("https://api.github.com/repos/".data ++ owner.data ++ ['/'])
        ++ (repo.data ++ ("/contents/".data
          ++ ((['\x7b', 'p', 'a', 't', 'h', '\x7d'] : List Char) ++ [])))
      = ("https://api.github.com/repos/".data ++ owner.data ++ ['/'] ++ repo.data
          ++ "/contents/".data)
        ++ ((['\x7b', 'p', 'a', 't', 'h', '\x7d'] : List Char) ++ []) from by simp]
  rw [replaceFirstGo_step _ _ _ ['p', 'a', 't', 'h', '\x7d'] _ _ (by
    intro hm
    rcases List.mem_append.mp hm with hm | hm
    · rcases List.mem_append.mp hm with hm | hm
      · rcases List.mem_append.mp hm with hm | hm
        · rcases List.mem_append.mp hm with hm | hm
          · exact absurd hm (by decide)
          · exact hob hm
        · exact absurd hm (by decide)
      · exact hrb hm
    · exact absurd hm (by decide)) hpd]
  simp [String.data_append]

/-! ### Decoding the dispatched content (the round-trip direction for §4.3) -/

/-- Look a key up in a JSON object's fields (first match). -/
def getField : List (String × Json) → String → Option Json
  | [], _ => none
  | (k, v) :: fs, key => if k = key then some v else getField fs key

def decodeSongs : Option Json → Option (Option (List Json))
  | none => some none
  | some (Json.arr l) => some (some l)
  | some _ => none

def decodeBool : Option Json → Option (Option Bool)
  | none => some none
  | some (Json.bool b) => some (some b)
  | some _ => none

/-- Read a `GitHubRequestData` back off its serialized JSON object. -/
def dataFromJson : Json → Option GitHubRequestData
  | .obj fs =>
    (decodeSongs (getField fs "songs")).bind fun songs =>
      (decodeBool (getField fs "isLoved")).bind fun isLoved =>
        (decodeBool (getField fs "currentlyPlaying")).map fun cp =>
          { song := getField fs "song", songs := songs, isLoved := isLoved,
            currentlyPlaying := cp }
  | _ => none

/-- Read a `GitHubRequest` back off its serialized JSON object. -/
def requestFromJson : Json → Option GitHubRequest
  | .obj fs =>
    match getField fs "eventName", getField fs "time", getField fs "data" with
    | some (.str e), some (.num (.ofNat t)), some d =>
      (dataFromJson d).map fun dd => { eventName := e, time := t, data := dd }
    | _, _, _ => none
  | _ => none

/-- What a receiver does with the body's `content` field: base64-decode it and
parse the JSON inside. -/
def decodeContent (content : String) : Option GitHubRequest :=
  (atob content).bind fun s => (parseJson s).bind requestFromJson

theorem dataFromJson_dataFields (d : GitHubRequestData) :
    dataFromJson (.obj (dataFields d)) = some d := by
  obtain ⟨song, songs, isLoved, cp⟩ := d
  cases song <;> cases songs <;> cases isLoved <;> cases cp <;>
    simp [dataFields, dataFromJson, getField, decodeSongs, decodeBool]

theorem requestFromJson_requestToJson (r : GitHubRequest) :
    requestFromJson (requestToJson r) = some r := by
  obtain ⟨e, t, d⟩ := r
  simp [requestToJson, requestFromJson, getField, dataFromJson_dataFields]

/-! ### The empty-scrobble request always serializes (ASCII output) -/

theorem scrobbleRequest_empty_ascii (cp : Bool) (now : Nat) (c : Char)
    (hc : c ∈ printJson (requestToJson (scrobbleRequest [] cp now))) : c.toNat < 256 := by
  have hnn : ¬((now : Int) < 0) := by omega
  have hnat : ∀ x ∈ natChars now, x.toNat < 256 := fun x hx => by
    have hd := natChars_all_digit now x hx
    simp [isDigitCh] at hd
    omega
  cases cp <;>
  · simp [scrobbleRequest, requestToJson, dataFields, printJson, printMembers, printElems,
      printStr, strBodyChars, escapeChar, intChars, hnn, Int.natAbs_ofNat] at hc
    casesm* _ ∨ _
    all_goals first
      | exact hnat c (by assumption)
      | (subst c; decide)

theorem scrobbleRequest_empty_body (cp : Bool) (now : Nat) :
    ∃ body, buildBody (scrobbleRequest [] cp now) = some body := by
  have hall : (Json.stringify (requestToJson (scrobbleRequest [] cp now))).data.all
      (fun c => decide (c.toNat < 256)) = true :=
    List.all_eq_true.mpr fun c hc =>
      decide_eq_true (scrobbleRequest_empty_ascii cp now c hc)
  simp only [buildBody, buildContent, btoa, hall, if_true, Option.map_some']
  exact ⟨_, rfl⟩

/-! ### Concrete fixtures used by the witnesses -/

/-- A concrete destination entry. -/
def props0 : ArrayProperties := { applicationName := "alice/repo", userApiUrl := "tok" }

/-- A concrete event request. -/
def req0 : GitHubRequest :=
  { eventName := "scrobble"
    time := 1700000000000
    data := { song := some (.str "s"), songs := some [.str "s"], isLoved := none,
              currentlyPlaying := some true } }

/-! ### The claims -/

/-- C1: with an absent or empty destination list, `sendRequest` returns
`ERROR_AUTH` with no request issued (whatever the request and whatever the
network would have produced — in particular before any body is built), and the
same configuration-absence check makes `getSession` reject. -/
theorem sendRequest_no_config_rejects (ap : Option (List ArrayProperties))
    (request : GitHubRequest) (join : JoinOutcome) (h : ap = none ∨ ap = some []) :
    sendRequest ap request join = ⟨[], .value .ERROR_AUTH⟩ ∧ getSession ap = .rejected "" := by
  rcases h with rfl | rfl <;> exact ⟨rfl, rfl⟩

/-- Witness for C1 at a concrete input. -/
theorem sendRequest_no_config_rejects_witness :
    sendRequest none req0 .failed = ⟨[], .value .ERROR_AUTH⟩ ∧ getSession none = .rejected "" :=
  sendRequest_no_config_rejects none req0 .failed (Or.inl rfl)

/-- C2: with a non-empty destination list, when the join completes and every
response has status exactly 200, `sendRequest` returns `RESULT_OK`. -/
theorem sendRequest_all_ok (props : List ArrayProperties) (request : GitHubRequest)
    (body : String) (rs : List Response)
    (hne : props ≠ []) (hb : buildBody request = some body)
    (hlen : rs.length = props.length) (hall : ∀ r ∈ rs, r.status = 200) :
    (sendRequest (some props) request (.responses rs)).outcome = .value .RESULT_OK := by
  have hl : ¬(props.length = 0) := fun h => hne (List.length_eq_zero.mp h)
  simp [sendRequest, hl, hb, scanResponses_all_ok rs hall]

/-- Witness for C2 at a concrete input. -/
theorem sendRequest_all_ok_witness :
    (sendRequest (some [props0]) req0 (.responses [⟨200, "u"⟩])).outcome
      = .value .RESULT_OK :=
  sendRequest_all_ok [props0] req0 ((buildBody req0).get (by decide)) [⟨200, "u"⟩]
    (by decide) (Option.some_get (by decide)).symm (by decide) (by decide)

/-- C3: with a non-empty destination list and a completed join, one non-200
status makes `sendRequest` return `ERROR_OTHER`, however many other responses
were 200; the scan stops at the first offending response, so the responses
after it play no part. -/
theorem sendRequest_first_non200_error (props : List ArrayProperties)
    (request : GitHubRequest) (body : String)
    (rs₁ : List Response) (r : Response) (rs₂ : List Response)
    (hne : props ≠ []) (hb : buildBody request = some body)
    (h₁ : ∀ x ∈ rs₁, x.status = 200) (hr : r.status ≠ 200) :
    (sendRequest (some props) request (.responses (rs₁ ++ r :: rs₂))).outcome
        = .value .ERROR_OTHER ∧
      scanResponses (rs₁ ++ r :: rs₂) = scanResponses (rs₁ ++ [r]) := by
  have hl : ¬(props.length = 0) := fun h => hne (List.length_eq_zero.mp h)
  constructor
  · simp [sendRequest, hl, hb, scanResponses_first_error rs₁ r rs₂ h₁ hr]
  · rw [scanResponses_first_error rs₁ r rs₂ h₁ hr, scanResponses_first_error rs₁ r [] h₁ hr]

/-- Witness for C3 at a concrete input. -/
theorem sendRequest_first_non200_error_witness :
    (sendRequest (some [props0]) req0
        (.responses ([⟨200, "a"⟩] ++ ⟨404, "b"⟩ :: [⟨200, "c"⟩]))).outcome
      = .value .ERROR_OTHER :=
  (sendRequest_first_non200_error [props0] req0 ((buildBody req0).get (by decide))
    [⟨200, "a"⟩] ⟨404, "b"⟩ [⟨200, "c"⟩]
    (by decide) (Option.some_get (by decide)).symm (by decide) (by decide)).1

/-- C4: with a non-empty destination list and a built body, a failed join
(timeout of the joined wait, or a transport-level rejection) is caught and
becomes `ERROR_OTHER`; and for every join outcome whatsoever the call settles
with a returned `ServiceCallResult`, never an uncaught fault. -/
theorem sendRequest_catches_join_failure (props : List ArrayProperties)
    (request : GitHubRequest) (body : String) (join : JoinOutcome)
    (hne : props ≠ []) (hb : buildBody request = some body) :
    (sendRequest (some props) request .failed).outcome = .value .ERROR_OTHER ∧
      ∃ res, (sendRequest (some props) request join).outcome = .value res := by
  have hl : ¬(props.length = 0) := fun h => hne (List.length_eq_zero.mp h)
  constructor
  · simp [sendRequest, hl, hb]
  · cases join with
    | failed => exact ⟨.ERROR_OTHER, by simp [sendRequest, hl, hb]⟩
    | responses rs => exact ⟨scanResponses rs, by simp [sendRequest, hl, hb]⟩

/-- Witness for C4 at a concrete input. -/
theorem sendRequest_catches_join_failure_witness :
    (sendRequest (some [props0]) req0 .failed).outcome = .value .ERROR_OTHER :=
  (sendRequest_catches_join_failure [props0] req0 ((buildBody req0).get (by decide)) .failed
    (by decide) (Option.some_get (by decide)).symm).1

/-- C5: the derived storage path is a deterministic function of event name and
timestamp of the form `year/month/day-field/time-name.json`, where the year is
the UTC calendar year, the month is zero-based, and the day field is the UTC
day of week (0 = Sunday), not the day of month — checked concretely at
1700000000000 ms (2023-11-14T22:13:20Z, a Tuesday, month index 10, day 14). -/
theorem derivedPath_spec :
    (∀ name time, derivedPath name time
        = natToString (getUTCFullYear time) ++ "/" ++ natToString (getUTCMonth time) ++ "/" ++
          natToString (getUTCDay time) ++ "/" ++ natToString time ++ "-" ++ name ++ ".json")
    ∧ (∀ time, getUTCDay time = (time / 86400000 + 4) % 7 ∧ getUTCDay time < 7)
    ∧ derivedPath "scrobble" 1700000000000 = "2023/10/2/1700000000000-scrobble.json"
    ∧ getUTCFullYear 1700000000000 = 2023 ∧ getUTCMonth 1700000000000 = 10
    ∧ getUTCDay 1700000000000 = 2 ∧ getUTCDate 1700000000000 = 14
    ∧ getUTCDay 1700000000000 ≠ getUTCDate 1700000000000 :=
  ⟨fun _ _ => rfl, fun time => ⟨rfl, Nat.mod_lt _ (by omega)⟩, by decide, by decide, by decide,
    by decide, by decide, by decide⟩

/-- C6: one request body is built from the event (message
`"<eventName> at <time>"`, fixed committer, base64 content) and that single
string is the body of every issued request; each destination's request is an
HTTP PUT differing only in URL and bearer token, and for an `owner/repo`
destination (segments free of `/`, of the template's brace, and of `$`, so
that `String.prototype.replace` expands no `$`-substitution pattern) the URL
is the contents endpoint of that repository under the derived path. -/
theorem sendRequest_shared_body_per_destination (props : List ArrayProperties)
    (request : GitHubRequest) (content : String) (join : JoinOutcome)
    (hne : props ≠ []) (hc : buildContent request = some content) :
    ∃ body, buildBody request = some body ∧
      body = Json.stringify (bodyJson request content) ∧
      (sendRequest (some props) request join).issued
        = props.map (fun p => makeHttpRequest p request body) ∧
      (∀ p, makeHttpRequest p request body
        = ⟨targetUrl p request, "PUT", "application/json",
           "Bearer " ++ p.userApiUrl, body⟩) ∧
      (∀ q ∈ (sendRequest (some props) request join).issued,
        q.body = body ∧ q.method = "PUT" ∧ q.contentType = "application/json") ∧
      (∀ p : ArrayProperties, ∀ owner repo,
        p.applicationName = owner ++ "/" ++ repo →
        (∀ ch ∈ owner.data, ch ≠ '/' ∧ ch ≠ '\x7b' ∧ ch ≠ '$') →
        (∀ ch ∈ repo.data, ch ≠ '/' ∧ ch ≠ '\x7b' ∧ ch ≠ '$') →
        (∀ ch ∈ request.eventName.data, ch ≠ '$') →
        targetUrl p request
          = "https://api.github.com/repos/" ++ owner ++ "/" ++ repo ++ "/contents/"
            ++ derivedPath request.eventName request.time) := by
  have hl : ¬(props.length = 0) := fun h => hne (List.length_eq_zero.mp h)
  have hb : buildBody request = some (Json.stringify (bodyJson request content)) := by
    simp [buildBody, hc]
  have hiss : (sendRequest (some props) request join).issued
      = props.map (fun p => makeHttpRequest p request (Json.stringify (bodyJson request content))) := by
    cases join with
    | failed => simp [sendRequest, hl, hb, issuedRequests_eq_map]
    | responses rs => simp [sendRequest, hl, hb, issuedRequests_eq_map]
  refine ⟨Json.stringify (bodyJson request content), hb, rfl, hiss, fun p => rfl, ?_, ?_⟩
  · intro q hq
    rw [hiss] at hq
    obtain ⟨p, _, rfl⟩ := List.mem_map.mp hq
    exact ⟨rfl, rfl, rfl⟩
  · intro p owner repo h1 h2 h3 h4
    exact targetUrl_split p request owner repo h1 h2 h3 h4

/-- Witness for C6 at a concrete input. -/
theorem sendRequest_shared_body_per_destination_witness :
    ∃ body, buildBody req0 = some body ∧
      (sendRequest (some [props0]) req0 .failed).issued
        = [props0].map (fun p => makeHttpRequest p req0 body) := by
  obtain ⟨body, h1, _, h3, _⟩ :=
    sendRequest_shared_body_per_destination [props0] req0
      ((buildContent req0).get (by decide)) .failed (by decide)
      (Option.some_get (by decide)).symm
  exact ⟨body, h1, h3⟩

/-- C7: whenever the body is built, base64-decoding its `content` field and
JSON-parsing the result reproduces the serialized event exactly. -/
theorem content_roundtrip (request : GitHubRequest) (content : String)
    (hc : buildContent request = some content) :
    decodeContent content = some request := by
  have hat := atob_btoa _ _ hc
  simp [decodeContent, hat, parseJson_stringify, requestFromJson_requestToJson]

/-- Witness for C7 at a concrete input. -/
theorem content_roundtrip_witness :
    decodeContent ((buildContent req0).get (by decide)) = some req0 :=
  content_roundtrip req0 _ (Option.some_get (by decide)).symm

/-- C8: for a non-empty song list, `scrobble` dispatches exactly one request,
whose payload carries the first song in the singular field, the full list and
the flag; whenever that single dispatch returns a result, `scrobble` returns it
replicated once per input song. -/
theorem scrobble_single_dispatch_replicated (ap : Option (List ArrayProperties)) (s : Json)
    (rest : List Json) (cp : Bool) (now : Nat) (join : JoinOutcome) :
    (scrobble ap (s :: rest) cp now join).dispatched = [scrobbleRequest (s :: rest) cp now] ∧
      (scrobbleRequest (s :: rest) cp now).data.song = some s ∧
      (scrobbleRequest (s :: rest) cp now).data.songs = some (s :: rest) ∧
      (scrobbleRequest (s :: rest) cp now).data.currentlyPlaying = some cp ∧
      ∀ res, (sendRequest ap (scrobbleRequest (s :: rest) cp now) join).outcome = .value res →
        (scrobble ap (s :: rest) cp now join).results
          = .value (List.replicate (s :: rest).length res) := by
  refine ⟨rfl, rfl, rfl, rfl, fun res hres => ?_⟩
  simp [scrobble, hres]

/-- Witness for C8 at a concrete input. -/
theorem scrobble_single_dispatch_replicated_witness :
    (scrobble (some [props0]) [Json.str "a", Json.str "b"] true 1700000000000
        (.responses [⟨200, "u"⟩])).results
      = .value (List.replicate 2 ServiceCallResult.RESULT_OK) := by
  have h := scrobble_single_dispatch_replicated (some [props0]) (Json.str "a") [Json.str "b"]
    true 1700000000000 (.responses [⟨200, "u"⟩])
  exact h.2.2.2.2 .RESULT_OK (by decide)

/-- C9: `getSession` resolves with the fixed sentinel session `"webhook"`
exactly when at least one destination is configured; otherwise it rejects with
an (empty-message) authentication error. -/
theorem getSession_spec (ap : Option (List ArrayProperties)) :
    (getSession ap = .resolved ⟨"webhook"⟩ ↔ ∃ props, ap = some props ∧ props ≠ []) ∧
      (getSession ap ≠ .resolved ⟨"webhook"⟩ → getSession ap = .rejected "") := by
  cases ap with
  | none =>
    refine ⟨⟨fun h => ?_, ?_⟩, fun _ => rfl⟩
    · simp [getSession] at h
    · rintro ⟨props, hp, _⟩; cases hp
  | some props =>
    cases props with
    | nil =>
      refine ⟨⟨fun h => ?_, ?_⟩, fun _ => rfl⟩
      · simp [getSession] at h
      · rintro ⟨props', hp, hne⟩
        injection hp with hp
        exact absurd hp.symm hne
    | cons p ps =>
      have hres : getSession (some (p :: ps)) = .resolved ⟨"webhook"⟩ := by
        simp [getSession]
      refine ⟨⟨fun _ => ⟨p :: ps, rfl, by simp⟩, fun _ => hres⟩, fun h => absurd hres h⟩

/-- Witness for C9 at concrete inputs. -/
theorem getSession_spec_witness :
    getSession (some [props0]) = .resolved ⟨"webhook"⟩ ∧ getSession none = .rejected "" :=
  ⟨(getSession_spec (some [props0])).1.mpr ⟨[props0], rfl, by decide⟩,
    (getSession_spec none).2 (by decide)⟩

/-- C10: with a non-empty destination list, `scrobble` on an empty song list
still dispatches exactly one request — its payload's singular song field is
`undefined` (dropped from the JSON) while the songs list is empty — and
returns an empty outcome array whatever the network did, so the dispatch
outcome is unobservable to the caller. -/
theorem scrobble_empty_songs (ap : Option (List ArrayProperties))
    (props : List ArrayProperties) (cp : Bool) (now : Nat) (join : JoinOutcome)
    (hap : ap = some props) (hne : props ≠ []) :
    (scrobble ap [] cp now join).dispatched = [scrobbleRequest [] cp now] ∧
      (scrobbleRequest [] cp now).data.song = none ∧
      (scrobbleRequest [] cp now).data.songs = some [] ∧
      dataFields (scrobbleRequest [] cp now).data
        = [("songs", Json.arr []), ("currentlyPlaying", Json.bool cp)] ∧
      (scrobble ap [] cp now join).results = .value [] := by
  subst hap
  obtain ⟨body, hb⟩ := scrobbleRequest_empty_body cp now
  have hl : ¬(props.length = 0) := fun h => hne (List.length_eq_zero.mp h)
  refine ⟨rfl, rfl, rfl, rfl, ?_⟩
  cases join with
  | failed => simp [scrobble, sendRequest, hl, hb]
  | responses rs => simp [scrobble, sendRequest, hl, hb]

/-- Witness for C10 at a concrete input. -/
theorem scrobble_empty_songs_witness :
    (scrobble (some [props0]) [] true 0 .failed).results = .value [] :=
  (scrobble_empty_songs (some [props0]) [props0] true 0 .failed rfl (by decide)).2.2.2.2
